import Mathlib

/-!
Shallow embedding of `src/js/legends/legendDimensionModel.js` (tui.chart).

The module computes the legend region's dimension.  Machine numbers are
modelled as `Nat` (all widths/heights here are nonnegative integer pixel
counts; no overflow is reachable).  Text measurement is an injected
capability (spec §6), modelled as abstract functions carried in
`LegendConfig` together with the fixed layout constants from `const.js`
(whose concrete values the spec does not fix).
-/

namespace LegendDimension

/-- Layout constants from `chartConst` plus the text-measurement adapter
(`renderUtil.getRenderedLabelWidth` / `getRenderedLabelsMaxHeight` with the
label theme already applied), per spec §6 an injected, deterministic
capability. -/
structure LegendConfig where
  checkboxWidth : Nat
  rectWidth : Nat
  labelLeftPadding : Nat
  areaPadding : Nat
  measureWidth : String → Nat
  measureMaxHeight : List String → Nat

/-- Legend options.  `hasCheckbox` is `Option Bool` because the source tests
`options.hasCheckbox === false`, distinguishing absent (default true) from
an explicit `false`. -/
structure LegendOptions where
  hasCheckbox : Option Bool
  align : String
  hidden : Bool

/-- Modelled from the spec: the helpers `predicate.isPieTypeChart`,
`predicate.isPieLegendAlign` and `predicate.isHorizontalLegend` live in
`src/js/helpers/predicate.js`, which is not part of the provided sources.
The spec describes them only as classifications over closed sets of chart
types and alignment modes, fixing no membership lists, so they are kept
abstract as boolean predicates. -/
structure LegendPredicates where
  isPieTypeChart : String → Bool
  isPieLegendAlign : String → Bool
  isHorizontalLegend : String → Bool

/-- Modelled from the spec: `tui.util.sum` (repository glue code extending
tui-code-snippet, not among the provided sources); the spec §4.2 step 2 says
"cumulative footprint (sum of per-label footprints)". -/
def tuiSum (l : List Nat) : Nat := l.foldl (· + ·) 0

/-- Modelled from the spec: `tui.util.max` (repository glue code, not among
the provided sources); the spec §4.2 step 2 says "take the maximum across
groups", and its stated edge case gives `maxLineWidth = 0` for the empty
collection, so the empty maximum is `0`. -/
def tuiMax (l : List Nat) : Nat := l.foldl Nat.max 0

/-- `this.legendCheckboxWidth` as resolved in `init`:
`options.hasCheckbox === false ? 0 : chartConst.LEGEND_CHECKBOX_WIDTH`. -/
def legendCheckboxWidth (cfg : LegendConfig) (opts : LegendOptions) : Nat :=
  if opts.hasCheckbox = some false then 0 else cfg.checkboxWidth

/-- `_makeLegendWidth`: label width plus checkbox, rect, left padding and
area padding constants. -/
def makeLegendWidth (cfg : LegendConfig) (opts : LegendOptions) (labelWidth : Nat) : Nat :=
  labelWidth + legendCheckboxWidth cfg opts + cfg.rectWidth +
    cfg.labelLeftPadding + cfg.areaPadding

/-- `_calculateLegendsWidthSum`: sum of the footprints of the labels of one
line. -/
def calculateLegendsWidthSum (cfg : LegendConfig) (opts : LegendOptions)
    (labels : List String) : Nat :=
  tuiSum (labels.map fun label => makeLegendWidth cfg opts (cfg.measureWidth label))

/-- `Math.round(labels.length / count)` for `count ≥ 1`:
`floor(len/count + 1/2) = (2*len + count) / (2*count)` in `Nat` division
(JavaScript `Math.round` rounds halves up). -/
def limitCount (labels : List String) (count : Nat) : Nat :=
  (2 * labels.length + count) / (2 * count)

/-- The `forEachArray` body of `_divideLegendLabels`: `results` is the list of
finished groups, `temp` the group being filled; after the walk, a nonempty
`temp` is appended (`if (temp.length) results.push(temp)`). -/
def divideLoop (limit : Nat) : List String → List (List String) → List String →
    List (List String)
  | [], results, temp => if temp.length ≠ 0 then results ++ [temp] else results
  | l :: ls, results, temp =>
    if temp.length < limit then divideLoop limit ls results (temp ++ [l])
    else divideLoop limit ls (results ++ [temp]) [l]

/-- `_divideLegendLabels`. -/
def divideLegendLabels (labels : List String) (count : Nat) : List (List String) :=
  divideLoop (limitCount labels count) labels [] []

/-- `_getMaxLineWidth`: maximum over the per-line width sums. -/
def getMaxLineWidth (cfg : LegendConfig) (opts : LegendOptions)
    (dividedLabels : List (List String)) : Nat :=
  tuiMax (dividedLabels.map (calculateLegendsWidthSum cfg opts))

/-- Result of `_makeDividedLabelsAndMaxLineWidth`.  `dividedLabels` is an
`Option` because on the very first iteration the convergence break copies the
still-unassigned `prevLabels` (JavaScript `undefined`) into the result. -/
structure DividedResult where
  dividedLabels : Option (List (List String))
  maxLineWidth : Nat
deriving DecidableEq, Repr

/-- The `do … while` loop of `_makeDividedLabelsAndMaxLineWidth`, with an
explicit fuel argument (the loop terminates; `makeDividedLoop_isSome` below
shows fuel `labels.length + 1` always suffices from the initial state).
State: current `divideCount`, `prevMaxWidth`, `prevLabels`. -/
def makeDividedLoop (cfg : LegendConfig) (opts : LegendOptions)
    (labels : List String) (chartWidth : Nat) :
    Nat → Nat → Option (List (List String)) → Nat → Option DividedResult
  | _, _, _, 0 => none
  | divideCount, prevMaxWidth, prevLabels, fuel + 1 =>
    let dividedLabels := divideLegendLabels labels divideCount
    let maxLineWidth := getMaxLineWidth cfg opts dividedLabels
    if prevMaxWidth = maxLineWidth then
      some ⟨prevLabels, maxLineWidth⟩
    else if chartWidth ≤ maxLineWidth then
      makeDividedLoop cfg opts labels chartWidth (divideCount + 1) maxLineWidth
        (some dividedLabels) fuel
    else
      some ⟨some dividedLabels, maxLineWidth⟩

/-- `_makeDividedLabelsAndMaxLineWidth`: run the loop from
`divideCount = 1`, `prevMaxWidth = 0`, `prevLabels` undefined.  The default
of `getD` is never reached (see `makeDividedLoop_isSome`). -/
def makeDividedLabelsAndMaxLineWidth (cfg : LegendConfig) (opts : LegendOptions)
    (labels : List String) (chartWidth : Nat) : DividedResult :=
  (makeDividedLoop cfg opts labels chartWidth 1 0 none (labels.length + 1)).getD ⟨none, 0⟩

/-- `_calculateHorizontalLegendHeight`: sum of the per-line maximal rendered
label heights.  A `none` (JavaScript `undefined`) `dividedLabels` iterates as
empty: `tui.util.map` walks `undefined` with a `for…in` loop, which visits
nothing, so the sum is `0`. -/
def calculateHorizontalLegendHeight (cfg : LegendConfig)
    (dividedLabels : Option (List (List String))) : Nat :=
  tuiSum ((dividedLabels.getD []).map cfg.measureMaxHeight)

/-- Output dimension.  `height` is an `Option` because the skip branch of
`makeDimension` leaves it unset (spec §4.5 / §9). -/
structure Dimension where
  width : Nat
  height : Option Nat
deriving DecidableEq, Repr

/-- `_makeHorizontalDimension`. -/
def makeHorizontalDimension (cfg : LegendConfig) (opts : LegendOptions)
    (labels : List String) (chartWidth : Nat) : Dimension :=
  let labelsAndMaxWidth := makeDividedLabelsAndMaxLineWidth cfg opts labels chartWidth
  let horizontalLegendHeight :=
    calculateHorizontalLegendHeight cfg labelsAndMaxWidth.dividedLabels
  ⟨labelsAndMaxWidth.maxLineWidth, some (horizontalLegendHeight + cfg.areaPadding * 2)⟩

/-- Modelled from the spec: `renderUtil.getRenderedLabelsMaxWidth`
(`src/js/helpers/renderUtil.js`, not among the provided sources) — the
maximum measured width over the labels (spec §4.4: "the single widest
label"). -/
def getRenderedLabelsMaxWidth (cfg : LegendConfig) (labels : List String) : Nat :=
  tuiMax (labels.map cfg.measureWidth)

/-- `_makeVerticalDimension`. -/
def makeVerticalDimension (cfg : LegendConfig) (opts : LegendOptions)
    (labels : List String) : Dimension :=
  ⟨makeLegendWidth cfg opts (getRenderedLabelsMaxWidth cfg labels), some 0⟩

/-- The per-computation model state built by `init`: `chartTypes` is
`Option` because `params.chartTypes || [this.chartType]` falls back when the
field is absent. -/
structure LegendModel where
  chartType : String
  chartTypes : Option (List String)
  options : LegendOptions
  legendLabels : List String

/-- `this.chartTypes = params.chartTypes || [this.chartType]`. -/
def resolvedChartTypes (m : LegendModel) : List String :=
  m.chartTypes.getD [m.chartType]

/-- `_isSkipLegend`. -/
def isSkipLegend (p : LegendPredicates) (m : LegendModel) : Bool :=
  ((resolvedChartTypes m).all p.isPieTypeChart && p.isPieLegendAlign m.options.align) ||
    m.options.hidden

/-- `makeDimension`: skip ⇒ bare `{width: 0}` (no height); horizontal align ⇒
horizontal policy; otherwise vertical policy. -/
def makeDimension (cfg : LegendConfig) (p : LegendPredicates) (m : LegendModel)
    (chartWidth : Nat) : Dimension :=
  if isSkipLegend p m then ⟨0, none⟩
  else if p.isHorizontalLegend m.options.align then
    makeHorizontalDimension cfg m.options m.legendLabels chartWidth
  else
    makeVerticalDimension cfg m.options m.legendLabels

/-! ### Concrete fixtures used by witnesses and counterexamples -/

/-- A concrete configuration: positive layout constants, zero-width
measurement. -/
def cCfg : LegendConfig := ⟨20, 12, 5, 10, fun _ => 0, fun _ => 0⟩

/-- Concrete default options (checkbox option absent, not hidden). -/
def cOpts : LegendOptions := ⟨none, "top", false⟩

/-- A configuration with zero constants whose measurement realizes the
spec's horizontal example: at `k = 1` the single line is `100` wide, at
`k = 2` and `k = 3` the widest line is `60`, against `chartWidth = 40`. -/
def wCfg : LegendConfig :=
  ⟨0, 0, 0, 0, fun l => if l = "a" then 60 else if l = "c" then 40 else 0,
    fun ls => ls.length⟩

/-- The four labels of the horizontal example. -/
def wLabels : List String := ["a", "b", "c", "d"]

/-- A configuration realizing the spec's vertical example: label footprints
`[10, 15, 22]` (measured widths `6, 11, 18` plus constants
`2 + 1 + 1 = 4`, checkbox disabled). -/
def vCfg : LegendConfig :=
  ⟨7, 2, 1, 1, fun l => if l = "A" then 6 else if l = "BB" then 11 else 18,
    fun ls => ls.length⟩

/-- Options with the checkbox explicitly disabled. -/
def vOpts : LegendOptions := ⟨some false, "left", false⟩

/-- Predicates classifying nothing as pie-family or pie-aligned and
every alignment as horizontal. -/
def hP : LegendPredicates := ⟨fun _ => false, fun _ => false, fun _ => true⟩

/-- A model whose options carry `hidden = true`. -/
def hiddenM : LegendModel := ⟨"line", none, ⟨none, "top", true⟩, ["x", "y"]⟩

/-- Predicates classifying everything as pie-family and pie-aligned. -/
def pieP : LegendPredicates := ⟨fun _ => true, fun _ => true, fun _ => false⟩

/-- A model for the pie-skip case: pie chart types, not hidden. -/
def pieM : LegendModel := ⟨"pie", some ["pie"], ⟨none, "center", false⟩, ["x"]⟩

/-! ### Lemmas about `_divideLegendLabels` -/

lemma divideLoop_flatten (limit : Nat) :
    ∀ (ls : List String) (results : List (List String)) (temp : List String),
      (divideLoop limit ls results temp).flatten = results.flatten ++ (temp ++ ls)
  | [], results, temp => by
    simp only [divideLoop]
    split
    · simp
    · next h =>
      have htemp : temp = [] := by
        simp only [ne_eq, Decidable.not_not] at h
        exact List.length_eq_zero.mp h
      simp [htemp]
  | l :: ls, results, temp => by
    simp only [divideLoop]
    split
    · rw [divideLoop_flatten limit ls results (temp ++ [l])]
      simp
    · rw [divideLoop_flatten limit ls (results ++ [temp]) [l]]
      simp

lemma divideLoop_sizes (limit : Nat) (hlim : 1 ≤ limit) :
    ∀ (ls : List String) (results : List (List String)) (temp : List String),
      (∀ g ∈ results, g.length = limit) → temp.length ≤ limit →
      (∀ g ∈ (divideLoop limit ls results temp).dropLast, g.length = limit) ∧
        (∀ g ∈ divideLoop limit ls results temp, 1 ≤ g.length ∧ g.length ≤ limit)
  | [], results, temp => by
    intro hres htemp
    simp only [divideLoop]
    split
    · next hne =>
      refine ⟨?_, ?_⟩
      · rw [List.dropLast_concat]
        exact hres
      · intro g hg
        rcases List.mem_append.mp hg with hg | hg
        · have := hres g hg; omega
        · have hgt : g = temp := by simpa using hg
          subst hgt
          exact ⟨by omega, htemp⟩
    · refine ⟨?_, ?_⟩
      · intro g hg
        exact hres g ((List.dropLast_sublist _).subset hg)
      · intro g hg
        have := hres g hg; omega
  | l :: ls, results, temp => by
    intro hres htemp
    simp only [divideLoop]
    split
    · next hlt =>
      exact divideLoop_sizes limit hlim ls results (temp ++ [l]) hres (by simp; omega)
    · next hge =>
      refine divideLoop_sizes limit hlim ls (results ++ [temp]) [l] ?_ (by simpa)
      intro g hg
      rcases List.mem_append.mp hg with hg | hg
      · exact hres g hg
      · have hgt : g = temp := by simpa using hg
        subst hgt
        omega

lemma divideLoop_single (limit : Nat) :
    ∀ (ls : List String) (results : List (List String)) (temp : List String),
      temp.length + ls.length ≤ limit → temp ++ ls ≠ [] →
      divideLoop limit ls results temp = results ++ [temp ++ ls]
  | [], results, temp => by
    intro _ hne
    simp only [divideLoop]
    rw [if_pos]
    · simp
    · simp only [List.append_nil] at hne
      simpa using hne
  | l :: ls, results, temp => by
    intro hlen hne
    simp only [divideLoop]
    rw [if_pos (by simp at hlen ⊢; omega)]
    rw [divideLoop_single limit ls results (temp ++ [l]) (by simp at hlen ⊢; omega) (by simp)]
    simp

/-- C3: every `_divideLegendLabels` result is an ordered partition of the
input — concatenating the groups in order reconstructs the labels, and the
group lengths sum to the input length. -/
theorem divideLegendLabels_partition (labels : List String) (count : Nat)
    (_hc : 1 ≤ count) :
    (divideLegendLabels labels count).flatten = labels ∧
      ((divideLegendLabels labels count).map List.length).sum = labels.length := by
  have hj : (divideLegendLabels labels count).flatten = labels := by
    simpa using divideLoop_flatten (limitCount labels count) labels [] []
  refine ⟨hj, ?_⟩
  rw [← List.length_flatten, hj]

/-- Witness for C3 at `labels = ["a","b","c"]`, `count = 2`. -/
theorem divideLegendLabels_partition_witness :
    (divideLegendLabels ["a", "b", "c"] 2).flatten = ["a", "b", "c"] ∧
      ((divideLegendLabels ["a", "b", "c"] 2).map List.length).sum = 3 :=
  divideLegendLabels_partition ["a", "b", "c"] 2 (by norm_num)

/-- C4 counterexample: `_divideLegendLabels` does not return exactly `count`
groups.  Five labels divided with `count = 4` give `limitCount =
round(5/4) = 1`, hence five singleton groups, not four groups. -/
theorem divideLegendLabels_counterexample :
    (divideLegendLabels ["a", "b", "c", "d", "e"] 4).length = 5 ∧
      (divideLegendLabels ["a", "b", "c", "d", "e"] 4).length ≠ 4 := by
  decide

/-- C4 amended: for `count ≥ 1` with target group size
`limitCount = round(len/count) ≥ 1`, `_divideLegendLabels` cuts the labels
into contiguous groups: every group but the last holds exactly `limitCount`
labels, every group is nonempty with at most `limitCount` labels, the
groups concatenate back to the input (so the group count is
`ceil(len/limitCount)`, not necessarily `count`), and for `count = 1` a
nonempty label list yields the single group holding all labels. -/
theorem divideLegendLabels_chunks (labels : List String) (count : Nat)
    (hc : 1 ≤ count) (hl : 1 ≤ limitCount labels count) :
    (divideLegendLabels labels count).flatten = labels ∧
      (∀ g ∈ (divideLegendLabels labels count).dropLast,
        g.length = limitCount labels count) ∧
      (∀ g ∈ divideLegendLabels labels count,
        1 ≤ g.length ∧ g.length ≤ limitCount labels count) ∧
      (count = 1 → labels ≠ [] → divideLegendLabels labels count = [labels]) := by
  obtain ⟨hdrop, hall⟩ :=
    divideLoop_sizes (limitCount labels count) hl labels [] [] (by simp) (by simp)
  refine ⟨?_, hdrop, hall, ?_⟩
  · simpa using divideLoop_flatten (limitCount labels count) labels [] []
  · intro h1 hne
    subst h1
    have hlim : limitCount labels 1 = labels.length := by
      unfold limitCount
      omega
    unfold divideLegendLabels
    rw [hlim]
    rw [divideLoop_single labels.length labels [] [] (by simp) (by simpa using hne)]
    simp

/-- Witness for C4's amended theorem at `labels = ["a","b","c"]`,
`count = 2` (`limitCount = 2`). -/
theorem divideLegendLabels_chunks_witness :
    (divideLegendLabels ["a", "b", "c"] 2).flatten = ["a", "b", "c"] ∧
      divideLegendLabels ["a", "b", "c"] 2 = [["a", "b"], ["c"]] :=
  ⟨(divideLegendLabels_chunks ["a", "b", "c"] 2 (by norm_num) (by decide)).1, by decide⟩

/-! ### Lemmas about the convergence loop -/

lemma limitCount_length (labels : List String) (h : 1 ≤ labels.length) :
    limitCount labels labels.length = 1 := by
  unfold limitCount
  exact Nat.div_eq_of_lt_le (by omega) (by omega)

lemma limitCount_length_succ (labels : List String) (h : 1 ≤ labels.length) :
    limitCount labels (labels.length + 1) = 1 := by
  unfold limitCount
  exact Nat.div_eq_of_lt_le (by omega) (by omega)

/-- At division counts `len` and `len + 1` the partition is the same (all
singleton groups), the heart of the loop's termination argument. -/
lemma divideLegendLabels_length_succ (labels : List String) (h : 1 ≤ labels.length) :
    divideLegendLabels labels (labels.length + 1) = divideLegendLabels labels labels.length := by
  unfold divideLegendLabels
  rw [limitCount_length labels h, limitCount_length_succ labels h]

lemma getMaxLineWidth_nil (cfg : LegendConfig) (opts : LegendOptions)
    (labels : List String) (h : labels.length = 0) :
    getMaxLineWidth cfg opts (divideLegendLabels labels 1) = 0 := by
  have hnil : labels = [] := List.length_eq_zero.mp h
  subst hnil
  rfl

lemma makeDividedLoop_isSome_aux (cfg : LegendConfig) (opts : LegendOptions)
    (labels : List String) (chartWidth : Nat) :
    ∀ (fuel c pmw : Nat) (pl : Option (List (List String))),
      1 ≤ c → c ≤ labels.length + 1 → labels.length + 2 ≤ fuel + c →
      (c = 1 → pmw = 0) →
      (2 ≤ c → pmw = getMaxLineWidth cfg opts (divideLegendLabels labels (c - 1))) →
      (makeDividedLoop cfg opts labels chartWidth c pmw pl fuel).isSome = true := by
  intro fuel
  induction fuel with
  | zero =>
    intro c pmw pl h1 h2 h3 _ _
    omega
  | succ f ih =>
    intro c pmw pl h1 h2 h3 hc1 hc2
    simp only [makeDividedLoop]
    by_cases heq : pmw = getMaxLineWidth cfg opts (divideLegendLabels labels c)
    · simp [heq]
    · rw [if_neg heq]
      by_cases hcw : chartWidth ≤ getMaxLineWidth cfg opts (divideLegendLabels labels c)
      · rw [if_pos hcw]
        have hclen : c ≤ labels.length := by
          by_contra hgt
          have hceq : c = labels.length + 1 := by omega
          rcases Nat.eq_zero_or_pos labels.length with hz | hpos
          · have hpz : pmw = 0 := hc1 (by omega)
            refine heq ?_
            rw [hpz, hceq, hz]
            exact (getMaxLineWidth_nil cfg opts labels hz).symm
          · have hprev := hc2 (by omega)
            refine heq ?_
            rw [hceq] at hprev ⊢
            simp only [Nat.add_sub_cancel] at hprev
            rw [divideLegendLabels_length_succ labels hpos]
            exact hprev
        refine ih (c + 1) _ (some (divideLegendLabels labels c)) (by omega) (by omega)
          (by omega) (by omega) ?_
        intro _
        simp
      · rw [if_neg hcw]
        simp
/-- The loop of `_makeDividedLabelsAndMaxLineWidth` reaches a result within
`labels.length + 1` iterations from its initial state. -/
lemma makeDividedLoop_isSome (cfg : LegendConfig) (opts : LegendOptions)
    (labels : List String) (chartWidth : Nat) :
    (makeDividedLoop cfg opts labels chartWidth 1 0 none (labels.length + 1)).isSome = true :=
  makeDividedLoop_isSome_aux cfg opts labels chartWidth (labels.length + 1) 1 0 none
    (by omega) (by omega) (by omega) (fun _ => rfl) (by omega)

lemma makeDividedLoop_mono (cfg : LegendConfig) (opts : LegendOptions)
    (labels : List String) (chartWidth : Nat) :
    ∀ (fuel c pmw : Nat) (pl : Option (List (List String))) (r : DividedResult),
      makeDividedLoop cfg opts labels chartWidth c pmw pl fuel = some r →
      makeDividedLoop cfg opts labels chartWidth c pmw pl (fuel + 1) = some r := by
  intro fuel
  induction fuel with
  | zero =>
    intro c pmw pl r h
    simp [makeDividedLoop] at h
  | succ f ih =>
    intro c pmw pl r h
    simp only [makeDividedLoop] at h ⊢
    by_cases heq : pmw = getMaxLineWidth cfg opts (divideLegendLabels labels c)
    · rw [if_pos heq] at h ⊢
      exact h
    · rw [if_neg heq] at h ⊢
      by_cases hcw : chartWidth ≤ getMaxLineWidth cfg opts (divideLegendLabels labels c)
      · rw [if_pos hcw] at h ⊢
        exact ih _ _ _ _ h
      · rw [if_neg hcw] at h ⊢
        exact h

lemma makeDividedLoop_fuel_ge (cfg : LegendConfig) (opts : LegendOptions)
    (labels : List String) (chartWidth : Nat) (c pmw : Nat)
    (pl : Option (List (List String))) (r : DividedResult)
    (fuel fuel' : Nat) (hle : fuel ≤ fuel')
    (h : makeDividedLoop cfg opts labels chartWidth c pmw pl fuel = some r) :
    makeDividedLoop cfg opts labels chartWidth c pmw pl fuel' = some r := by
  obtain ⟨d, rfl⟩ := Nat.exists_eq_add_of_le hle
  clear hle
  induction d with
  | zero => exact h
  | succ e ihe => exact makeDividedLoop_mono cfg opts labels chartWidth _ _ _ _ _ ihe

/-- C2: the partitioning loop terminates for every finite label sequence and
every `chartWidth ≥ 0` (all `Nat` chart widths, `0` included): running it
with fuel `labels.length + 1` — so the division count never needs to pass
`labels.length + 1`, where the convergence check on the all-singleton
partition of count `labels.length` necessarily fires — already yields a
result, and any larger fuel yields the same result. -/
theorem makeDividedLoop_terminates (cfg : LegendConfig) (opts : LegendOptions)
    (labels : List String) (chartWidth fuel : Nat)
    (hfuel : labels.length + 1 ≤ fuel) :
    (makeDividedLoop cfg opts labels chartWidth 1 0 none (labels.length + 1)).isSome = true ∧
      makeDividedLoop cfg opts labels chartWidth 1 0 none fuel =
        makeDividedLoop cfg opts labels chartWidth 1 0 none (labels.length + 1) := by
  have hs := makeDividedLoop_isSome cfg opts labels chartWidth
  obtain ⟨r, hr⟩ := Option.isSome_iff_exists.mp hs
  refine ⟨hs, ?_⟩
  rw [hr]
  exact makeDividedLoop_fuel_ge cfg opts labels chartWidth 1 0 none r _ fuel hfuel hr

/-- C1: if the maximum line width computed at division count `k` equals the
one computed at `k - 1`, the loop — which at count `k ≥ 2` carries exactly
the count-`k - 1` partition and width as its previous state — stops at once
and returns the count-`k - 1` partitioning together with that repeated
width, with no condition on `chartWidth` (so also when the width still
reaches or exceeds it). -/
theorem makeDividedLoop_converges (cfg : LegendConfig) (opts : LegendOptions)
    (labels : List String) (chartWidth k fuel : Nat)
    (_hk : 2 ≤ k) (hfuel : 1 ≤ fuel)
    (heq : getMaxLineWidth cfg opts (divideLegendLabels labels k) =
      getMaxLineWidth cfg opts (divideLegendLabels labels (k - 1))) :
    makeDividedLoop cfg opts labels chartWidth k
        (getMaxLineWidth cfg opts (divideLegendLabels labels (k - 1)))
        (some (divideLegendLabels labels (k - 1))) fuel =
      some ⟨some (divideLegendLabels labels (k - 1)),
        getMaxLineWidth cfg opts (divideLegendLabels labels (k - 1))⟩ := by
  cases fuel with
  | zero => omega
  | succ f =>
    simp only [makeDividedLoop]
    rw [if_pos heq.symm, heq]

/-- C5 counterexample: on the empty label sequence the loop's first
iteration computes `maxLineWidth = 0`, equal to the initial
`prevMaxWidth = 0`, so the convergence break copies the still-undefined
`prevLabels` into the result: `dividedLabels` is absent (`none`), not a
single empty line group. -/
theorem makeDivided_empty_counterexample :
    (makeDividedLabelsAndMaxLineWidth cCfg cOpts [] 0).maxLineWidth = 0 ∧
      (makeDividedLabelsAndMaxLineWidth cCfg cOpts [] 0).dividedLabels = none ∧
      (makeDividedLabelsAndMaxLineWidth cCfg cOpts [] 0).dividedLabels ≠ some [[]] := by
  refine ⟨rfl, rfl, ?_⟩
  decide

/-- C5 amended: for the empty label sequence and every chart width,
`_makeDividedLabelsAndMaxLineWidth` returns `maxLineWidth = 0` with
`dividedLabels` left undefined (`none`) — the convergence break fires on the
first iteration, before `prevLabels` was ever assigned — rather than a
single empty line group. -/
theorem makeDivided_empty (cfg : LegendConfig) (opts : LegendOptions)
    (chartWidth : Nat) :
    makeDividedLabelsAndMaxLineWidth cfg opts [] chartWidth =
      ⟨none, 0⟩ := rfl

/-- Witness for C1 at the spec's horizontal example: at `k = 2` and `k = 3`
the widest line is `60 ≥ chartWidth = 40`, and the loop stops with the
`k = 2` partition. -/
theorem makeDividedLoop_converges_witness :
    makeDividedLoop wCfg cOpts wLabels 40 3
        (getMaxLineWidth wCfg cOpts (divideLegendLabels wLabels 2))
        (some (divideLegendLabels wLabels 2)) 1 =
      some ⟨some (divideLegendLabels wLabels 2),
        getMaxLineWidth wCfg cOpts (divideLegendLabels wLabels 2)⟩ :=
  makeDividedLoop_converges wCfg cOpts wLabels 40 3 1 (by norm_num) (by norm_num)
    (by decide)

/-- Witness for C2 at four labels, `chartWidth = 40`, fuel `9 ≥ 5`. -/
theorem makeDividedLoop_terminates_witness :
    (makeDividedLoop wCfg cOpts wLabels 40 1 0 none (wLabels.length + 1)).isSome = true ∧
      makeDividedLoop wCfg cOpts wLabels 40 1 0 none 9 =
        makeDividedLoop wCfg cOpts wLabels 40 1 0 none (wLabels.length + 1) :=
  makeDividedLoop_terminates wCfg cOpts wLabels 40 9 (by decide)

/-! ### Skip policy and top-level dispatch -/

lemma makeDimension_eq_skip_iff (cfg : LegendConfig) (p : LegendPredicates)
    (m : LegendModel) (chartWidth : Nat) :
    makeDimension cfg p m chartWidth = ⟨0, none⟩ ↔ isSkipLegend p m = true := by
  constructor
  · intro h
    by_contra hn
    rw [makeDimension, if_neg hn] at h
    split at h
    · simp only [makeHorizontalDimension, Dimension.mk.injEq] at h
      exact Option.noConfusion h.2
    · simp only [makeVerticalDimension, Dimension.mk.injEq] at h
      exact Option.noConfusion h.2
  · intro h
    rw [makeDimension, if_pos h]

/-- C6: `makeDimension` yields the bare skip result — `width = 0` with no
height, produced without any layout computation or measurement — exactly
when the skip predicate holds: every resolved chart type is pie-family and
the alignment is pie-specific, or the `hidden` option is set.  In
particular the skip result appears whenever `hidden` is true, and whenever
all chart types are pie-family with a pie alignment even with
`hidden = false`. -/
theorem makeDimension_skip_characterization (cfg : LegendConfig)
    (p : LegendPredicates) (m : LegendModel) (chartWidth : Nat) :
    (makeDimension cfg p m chartWidth = ⟨0, none⟩ ↔
      (((resolvedChartTypes m).all p.isPieTypeChart = true ∧
        p.isPieLegendAlign m.options.align = true) ∨ m.options.hidden = true)) ∧
    (m.options.hidden = true → makeDimension cfg p m chartWidth = ⟨0, none⟩) ∧
    ((resolvedChartTypes m).all p.isPieTypeChart = true →
      p.isPieLegendAlign m.options.align = true → m.options.hidden = false →
      makeDimension cfg p m chartWidth = ⟨0, none⟩) := by
  have hskip : isSkipLegend p m = true ↔
      (((resolvedChartTypes m).all p.isPieTypeChart = true ∧
        p.isPieLegendAlign m.options.align = true) ∨ m.options.hidden = true) := by
    simp [isSkipLegend]
  have hiff := (makeDimension_eq_skip_iff cfg p m chartWidth).trans hskip
  refine ⟨hiff, ?_, ?_⟩
  · intro h
    exact hiff.mpr (Or.inr h)
  · intro h1 h2 _
    exact hiff.mpr (Or.inl ⟨h1, h2⟩)

/-- Witness for C6: all-pie chart types with pie alignment and
`hidden = false` produce the bare `width = 0` result. -/
theorem makeDimension_skip_characterization_witness :
    makeDimension cCfg pieP pieM 300 = ⟨0, none⟩ :=
  (makeDimension_skip_characterization cCfg pieP pieM 300).2.2 rfl rfl rfl

/-- C7: when the skip policy triggers, the returned dimension has its
height left unset (`none`, the JavaScript absent field, not `0`) and only
`width = 0` set. -/
theorem makeDimension_skip_height_unset (cfg : LegendConfig)
    (p : LegendPredicates) (m : LegendModel) (chartWidth : Nat)
    (h : isSkipLegend p m = true) :
    (makeDimension cfg p m chartWidth).height = none ∧
      (makeDimension cfg p m chartWidth).width = 0 := by
  rw [makeDimension, if_pos h]
  exact ⟨rfl, rfl⟩

/-- Witness for C7 with the hidden option set. -/
theorem makeDimension_skip_height_unset_witness :
    (makeDimension cCfg hP hiddenM 120).height = none ∧
      (makeDimension cCfg hP hiddenM 120).width = 0 :=
  makeDimension_skip_height_unset cCfg hP hiddenM 120 rfl

/-! ### Footprint formula and layout policies -/

/-- C8: a label's footprint is its measured text width plus the checkbox
width plus the rect width, label left padding and area padding constants;
the checkbox width is `0` exactly when `hasCheckbox === false`, and the
`LEGEND_CHECKBOX_WIDTH` constant otherwise — also when the option is
absent (default true). -/
theorem legend_footprint_formula (cfg : LegendConfig) (opts : LegendOptions)
    (label : String) :
    makeLegendWidth cfg opts (cfg.measureWidth label) =
      cfg.measureWidth label + legendCheckboxWidth cfg opts + cfg.rectWidth +
        cfg.labelLeftPadding + cfg.areaPadding ∧
    (opts.hasCheckbox = some false → legendCheckboxWidth cfg opts = 0) ∧
    (opts.hasCheckbox = some true ∨ opts.hasCheckbox = none →
      legendCheckboxWidth cfg opts = cfg.checkboxWidth) := by
  refine ⟨rfl, fun h => by simp [legendCheckboxWidth, h], fun h => ?_⟩
  rcases h with h | h <;> simp [legendCheckboxWidth, h]

/-- Witness for C8: with the option absent, the checkbox contributes the
full constant (`20` in `cCfg`). -/
theorem legend_footprint_formula_witness :
    legendCheckboxWidth cCfg cOpts = 20 :=
  (legend_footprint_formula cCfg cOpts "a").2.2 (Or.inr rfl)

lemma max_add_right (a x C : Nat) :
    Nat.max a x + C = Nat.max (a + C) (x + C) := by
  rcases Nat.le_total a x with h | h
  · rw [show Nat.max a x = x from Nat.max_eq_right h,
      show Nat.max (a + C) (x + C) = x + C from Nat.max_eq_right (Nat.add_le_add_right h C)]
  · rw [show Nat.max a x = a from Nat.max_eq_left h,
      show Nat.max (a + C) (x + C) = a + C from Nat.max_eq_left (Nat.add_le_add_right h C)]

lemma foldl_max_add : ∀ (l : List Nat) (a C : Nat),
    List.foldl Nat.max a l + C = List.foldl Nat.max (a + C) (l.map (· + C))
  | [], _, _ => rfl
  | x :: xs, a, C => by
    simp only [List.foldl_cons, List.map_cons]
    rw [foldl_max_add xs (Nat.max a x) C, max_add_right]

lemma tuiMax_map_add (l : List Nat) (C : Nat) (h : l ≠ []) :
    tuiMax (l.map (· + C)) = tuiMax l + C := by
  cases l with
  | nil => exact absurd rfl h
  | cons x xs =>
    simp only [tuiMax, List.map_cons, List.foldl_cons]
    have h1 : Nat.max 0 (x + C) = Nat.max 0 x + C := by
      rw [show Nat.max 0 (x + C) = x + C from Nat.max_eq_right (Nat.zero_le _),
        show Nat.max 0 x = x from Nat.max_eq_right (Nat.zero_le _)]
    rw [h1, ← foldl_max_add xs (Nat.max 0 x) C]

lemma makeLegendWidth_eq_add (cfg : LegendConfig) (opts : LegendOptions) (w : Nat) :
    makeLegendWidth cfg opts w =
      w + (legendCheckboxWidth cfg opts + cfg.rectWidth + cfg.labelLeftPadding +
        cfg.areaPadding) := by
  unfold makeLegendWidth
  omega

/-- C9: for a nonempty label sequence the vertical layout returns width
equal to the largest label footprint — the footprint of the single widest
label of the full, unpartitioned sequence — and height `0`. -/
theorem vertical_dimension_spec (cfg : LegendConfig) (opts : LegendOptions)
    (labels : List String) (h : labels ≠ []) :
    makeVerticalDimension cfg opts labels =
      ⟨tuiMax (labels.map fun l => makeLegendWidth cfg opts (cfg.measureWidth l)),
        some 0⟩ := by
  unfold makeVerticalDimension getRenderedLabelsMaxWidth
  congr 1
  rw [makeLegendWidth_eq_add]
  rw [← tuiMax_map_add (labels.map cfg.measureWidth) _ (by simpa using h)]
  rw [List.map_map]
  refine congrArg tuiMax (List.map_congr_left ?_)
  intro l _
  simp [Function.comp, makeLegendWidth_eq_add]

/-- Witness for C9 at the spec's vertical example: footprints
`[10, 15, 22]` yield width `22` and height `0`. -/
theorem vertical_dimension_spec_witness :
    makeVerticalDimension vCfg vOpts ["A", "BB", "CCC"] = ⟨22, some 0⟩ := by
  have h := vertical_dimension_spec vCfg vOpts ["A", "BB", "CCC"] (by decide)
  rw [h]
  decide

lemma tuiSum_eq_sum : ∀ (l : List Nat), tuiSum l = l.sum := by
  have haux : ∀ (l : List Nat) (a : Nat), List.foldl (· + ·) a l = a + l.sum := by
    intro l
    induction l with
    | nil => intro a; simp
    | cons x xs ih => intro a; simp [ih, Nat.add_assoc]
  intro l
  simpa using haux l 0

/-- C10: the horizontal layout returns width equal to the partitioning's
`maxLineWidth`, and height equal to the sum over the line groups of each
group's maximal rendered label height, plus `areaPadding * 2` (for the
empty sequence the group list is absent and the sum is empty). -/
theorem horizontal_dimension_spec (cfg : LegendConfig) (opts : LegendOptions)
    (labels : List String) (chartWidth : Nat) :
    makeHorizontalDimension cfg opts labels chartWidth =
      ⟨(makeDividedLabelsAndMaxLineWidth cfg opts labels chartWidth).maxLineWidth,
        some ((((makeDividedLabelsAndMaxLineWidth cfg opts labels
              chartWidth).dividedLabels.getD []).map cfg.measureMaxHeight).sum +
          cfg.areaPadding * 2)⟩ := by
  simp only [makeHorizontalDimension, calculateHorizontalLegendHeight, tuiSum_eq_sum]

end LegendDimension
